import Mathlib

/-!
Verification development for the mfgcompliance client.

This file gives a shallow embedding, in Lean, of the parts of the
TypeScript source that the specification talks about:

* `compareVersions`, `enrichDocumentMetadata`, `filterDocuments` and
  `exportDocumentsAsCSV` from `src/services/documentManagementService.tsx`;
* `pollOperationUntilComplete` from `src/services/api.services.tsx`;
* the upload loop of `handleUploadAndStartChat` from
  `src/components/ChatbotView.tsx`;
* the playback scheduling, interrupt handling and teardown of the live
  demo view (`src/unnamed/part_005`).

JavaScript numbers are modelled with `Int`/`ℚ`, `undefined`/`null` with
`Option`, and thrown exceptions with explicit result types.  JavaScript
truthiness on strings (`undefined`, `null` and `""` are falsy) is made
explicit in the helper functions below.
-/

namespace MfgCompliance

/-! ## String primitives

The embedding works over `List Char` internally (`String.splitOn`,
`String.toLower`, `String.trim` and friends are replaced by structurally
recursive equivalents, so that concrete instances evaluate inside the
kernel).  The intended JavaScript behaviour of each helper is noted on the
definition. -/

/-- Split a character list on a separator, JavaScript `String.prototype.split`
with a single-character separator: the empty string yields `[""]`, adjacent
separators yield empty components. -/
def splitCharsOn (sep : Char) : List Char → List (List Char)
  | [] => [[]]
  | c :: cs =>
    let r := splitCharsOn sep cs
    if c = sep then [] :: r
    else match r with
      | h :: t => (c :: h) :: t
      | [] => [[c]]

/-- JavaScript `s.split(sep)` for a one-character separator. -/
def jsSplit (s : String) (sep : Char) : List String :=
  (splitCharsOn sep s.toList).map (fun cs => String.mk cs)

/-- JavaScript `s.toLowerCase()` (ASCII range). -/
def toLowerStr (s : String) : String :=
  String.mk (s.toList.map Char.toLower)

/-- JavaScript `s.trim()`: whitespace removed from both ends. -/
def trimStr (s : String) : String :=
  String.mk (((s.toList.dropWhile fun c => c.isWhitespace).reverse.dropWhile
    fun c => c.isWhitespace).reverse)

/-- Does `needle` occur at the head of `hay`? -/
def startsWith : List Char → List Char → Bool
  | _, [] => true
  | [], _ :: _ => false
  | a :: as, b :: bs => a = b && startsWith as bs

/-- Does `needle` occur anywhere in `hay`? -/
def containsSeq : List Char → List Char → Bool
  | hay, needle =>
    match hay with
    | [] => needle.isEmpty
    | _ :: t => startsWith hay needle || containsSeq t needle

/-- JavaScript `s.includes(sub)`. -/
def strIncludes (s sub : String) : Bool :=
  containsSeq s.toList sub.toList

/-- Lexicographic strict comparison of character lists, JavaScript `a < b`
on strings. -/
def lexLt : List Char → List Char → Bool
  | [], [] => false
  | [], _ :: _ => true
  | _ :: _, [] => false
  | a :: as, b :: bs => if a = b then lexLt as bs else decide (a < b)

/-- JavaScript `parseInt` restricted to base 10: an optional sign followed by
the longest leading run of decimal digits; `none` models `NaN` (no digits). -/
def jsParseInt (s : String) : Option Int :=
  let core : List Char → Int → Option Int := fun cs sign =>
    let ds := cs.takeWhile Char.isDigit
    if ds.isEmpty then none
    else some (sign * (ds.foldl (fun a c => a * 10 + ((c.toNat : Int) - ('0'.toNat : Int))) 0))
  match s.toList with
  | '-' :: t => core t (-1)
  | '+' :: t => core t 1
  | t => core t 1

/-- JavaScript `parseInt(s) || 0`: `NaN` collapses to `0` (and `0` itself is
falsy, but `0 || 0` is again `0`). -/
def jsParseIntOr0 (s : String) : Int :=
  (jsParseInt s).getD 0

/-- JavaScript `o || d` for an optional string `o`: `undefined` and the empty
string are falsy, any other string is returned unchanged. -/
def jsOrString (o : Option String) (d : String) : String :=
  match o with
  | some s => if s = "" then d else s
  | none => d

/-- JavaScript `a || b` where both sides are optional strings. -/
def jsOrOpt (a b : Option String) : Option String :=
  match a with
  | some s => if s = "" then b else some s
  | none => b

/-! ## Version comparison (`compareVersions`) -/

/-- The first nonzero entry of a component list, `0` if there is none: what
the comparison loop of `compareVersions` reads once the other list has run
out (each missing component is `0`, so the first nonzero remaining
component decides). -/
def firstNonzero : List Int → Int
  | [] => 0
  | b :: bs => if b = 0 then firstNonzero bs else b

/-- The comparison loop of `compareVersions`: walk both component lists to
the length of the longer one, a missing component reading as `0`
(`parts[i] || 0`), and return `part1 - part2` at the first index where the
components differ, `0` if none does. -/
def cmpParts : List Int → List Int → Int
  | [], bs => -(firstNonzero bs)
  | a :: as, [] => if a = 0 then cmpParts as [] else a
  | a :: as, b :: bs => if a = b then cmpParts as bs else a - b

/-- `compareVersions` from `documentManagementService.tsx`: the sentinel
`"N/A"` short-circuits (first argument checked first), otherwise both
strings are split on `"."`, each component parsed with `parseInt(n) || 0`,
and the lists compared component-wise. -/
def compareVersions (v1 v2 : String) : Int :=
  if v1 = "N/A" then -1
  else if v2 = "N/A" then 1
  else cmpParts ((jsSplit v1 '.').map jsParseIntOr0) ((jsSplit v2 '.').map jsParseIntOr0)

/-! ## Document metadata (`enrichDocumentMetadata`) -/

/-- `CustomMetadata` from `src/unnamed/part_000`: every field is optional on
the wire. -/
structure CustomMetadata where
  key : Option String
  stringValue : Option String
  stringListValue : Option (List String)
  numericValue : Option Int
deriving DecidableEq

/-- `DocumentWithStore` (`src/unnamed/part_000`) together with the extra
fields (`createTime`, `updateTime`, `sizeBytes`, `mimeType`) that
`documentManagementService.tsx` reads off the raw record. -/
structure DocumentWithStore where
  name : String
  displayName : String
  customMetadata : Option (List CustomMetadata)
  storeName : String
  storeDisplayName : String
  createTime : Option String
  updateTime : Option String
  sizeBytes : Option String
  mimeType : Option String
deriving DecidableEq

/-- `ManagedDocument` from `documentManagementService.tsx`. `fileSize = none`
covers both `undefined` and `NaN` (both are falsy wherever the field is
used). -/
structure ManagedDocument where
  name : String
  displayName : String
  customMetadata : Option (List CustomMetadata)
  storeName : String
  storeDisplayName : String
  version : String
  notes : String
  category : Option String
  tags : Option (List String)
  lastModified : Option String
  fileSize : Option Int
  mimeType : Option String
deriving DecidableEq

/-- The notes placeholder literal of `enrichDocumentMetadata` (the source
file holds the em dash in a double-encoded form; we embed the literal as the
file has it). -/
def notesPlaceholder : String := "â€”"

/-- `doc.customMetadata?.find(m => m.key === k)`. -/
def metaFind (doc : DocumentWithStore) (k : String) : Option CustomMetadata :=
  doc.customMetadata.bind (List.find? (fun m => m.key == some k))

/-- `enrichDocumentMetadata` from `documentManagementService.tsx`: scan the
metadata list with `find` (first match) for each reserved key and fall back
to the documented defaults. -/
def enrichDocumentMetadata (doc : DocumentWithStore) : ManagedDocument :=
  let versionMeta := metaFind doc "version"
  let notesMeta := metaFind doc "notes"
  let categoryMeta := metaFind doc "category"
  let tagsMeta := metaFind doc "tags"
  { name := doc.name
    displayName := doc.displayName
    customMetadata := doc.customMetadata
    storeName := doc.storeName
    storeDisplayName := doc.storeDisplayName
    version := jsOrString (versionMeta.bind (fun m => m.stringValue)) "N/A"
    notes := jsOrString (notesMeta.bind (fun m => m.stringValue)) notesPlaceholder
    category := categoryMeta.bind (fun m => m.stringValue)
    tags := some (match tagsMeta.bind (fun m => m.stringValue) with
      | some s => if s = "" then [] else (jsSplit s ',').map trimStr
      | none => [])
    lastModified := jsOrOpt doc.createTime doc.updateTime
    fileSize := match doc.sizeBytes with
      | some s => if s = "" then none else jsParseInt s
      | none => none
    mimeType := doc.mimeType }

/-! ## CSV export (`exportDocumentsAsCSV`) -/

/-- The header names of the CSV export. -/
def csvHeaders : List String :=
  ["Name", "Store", "Version", "Notes", "Category", "Tags",
   "Last Modified", "File Size (KB)", "MIME Type"]

/-- Two-digit rendering of `k < 100`, used for the fractional part of
`toFixed(2)`. -/
def twoDigits (k : Nat) : String :=
  if k < 10 then "0" ++ toString k else toString k

/-- JavaScript `x.toFixed(2)` over exact rationals: round `x * 100` to the
nearest integer (ties away from zero on the decimal value) and print with
two decimals. -/
def toFixed2 (q : ℚ) : String :=
  let sign := if q < 0 then "-" else ""
  let c : Nat := (round (|q| * 100) : ℤ).toNat
  sign ++ toString (c / 100) ++ "." ++ twoDigits (c % 100)

/-- The `File Size (KB)` cell: `doc.fileSize ? (doc.fileSize / 1024).toFixed(2) : ""`
(`0`, `NaN` and `undefined` are all falsy). -/
def fileSizeCell (fileSize : Option Int) : String :=
  match fileSize with
  | some n => if n = 0 then "" else toFixed2 ((n : ℚ) / 1024)
  | none => ""

/-- One data row of the CSV export, before quoting, in source order. -/
def csvRow (doc : ManagedDocument) : List String :=
  [doc.displayName,
   doc.storeDisplayName,
   doc.version,
   doc.notes,
   doc.category.getD "",
   (match doc.tags with
    | some ts => String.intercalate "; " ts
    | none => ""),
   doc.lastModified.getD "",
   fileSizeCell doc.fileSize,
   doc.mimeType.getD ""]

/-- `exportDocumentsAsCSV` from `documentManagementService.tsx`: the header
names joined with `","` (unquoted), then one line per document with every
cell wrapped in double quotes, all lines joined with a newline. -/
def exportDocumentsAsCSV (documents : List ManagedDocument) : String :=
  String.intercalate "\n"
    (String.intercalate "," csvHeaders ::
      documents.map (fun doc =>
        String.intercalate "," ((csvRow doc).map (fun cell => "\"" ++ cell ++ "\""))))

/-! ## Shared helper lemmas -/

/-- A list of zeros has no nonzero entry. -/
lemma firstNonzero_replicate (k : Nat) : firstNonzero (List.replicate k 0) = 0 := by
  induction k with
  | zero => rfl
  | succ n ih => simpa [List.replicate, firstNonzero] using ih

/-- `cmpParts` on a right padding of zeros, empty left list. -/
lemma cmpParts_nil_replicate (k : Nat) : cmpParts [] (List.replicate k 0) = 0 := by
  simp [cmpParts, firstNonzero_replicate]

/-- `cmpParts` on a right padding of zeros, empty right list. -/
lemma cmpParts_replicate_nil (k : Nat) : cmpParts (List.replicate k 0) [] = 0 := by
  induction k with
  | zero => simp [cmpParts, firstNonzero]
  | succ n ih => simpa [List.replicate, cmpParts] using ih

/-- Padding a component list with trailing zeros does not change the
comparison, either way around. -/
lemma cmpParts_pad_zero (ps : List Int) (k : Nat) :
    cmpParts ps (ps ++ List.replicate k 0) = 0 ∧
    cmpParts (ps ++ List.replicate k 0) ps = 0 := by
  induction ps with
  | nil => simpa using ⟨cmpParts_nil_replicate k, cmpParts_replicate_nil k⟩
  | cons a as ih => simpa [cmpParts] using ih

/-- `List.find?` returns the first match: any entry after a match is
irrelevant. -/
lemma find?_first {α : Type} (p : α → Bool) (pre post : List α) (x : α)
    (hpre : ∀ y ∈ pre, p y = false) (hx : p x = true) :
    List.find? p (pre ++ x :: post) = some x := by
  induction pre with
  | nil => simp [List.find?, hx]
  | cons a t ih =>
    have ha : p a = false := hpre a (by simp)
    simpa [List.find?, ha] using ih (fun y hy => hpre y (by simp [hy]))

/-- If no entry of the metadata list has the reserved key, `metaFind`
returns `none`. -/
lemma metaFind_eq_none (doc : DocumentWithStore) (k : String)
    (h : ∀ l, doc.customMetadata = some l → ∀ m ∈ l, ¬ m.key = some k) :
    metaFind doc k = none := by
  unfold metaFind
  cases hm : doc.customMetadata with
  | none => rfl
  | some l =>
    show List.find? (fun m => m.key == some k) l = none
    refine List.find?_eq_none.mpr (fun m hmem => ?_)
    have := h l hm m hmem
    simpa using this

/-! ## C5: `compareVersions` -/

/-- C5, counterexample: the claim asserts `compareVersions "2.1.0" "2.1" > 0`,
but the code pads the shorter version with zero components, so the two
versions compare equal and the result is `0`, not positive. -/
theorem compareVersions_c5_counterexample :
    ¬ 0 < compareVersions "2.1.0" "2.1" := by decide

/-- C5, amended: `compareVersions` performs component-wise dotted-numeric
comparison with missing trailing components treated as zero — hence
`compareVersions "2.1.0" "2.1" = 0` (not `> 0`) since the versions differ
only by a trailing zero component — and the sentinel `"N/A"` sorts lowest:
`compareVersions "N/A" v = -1` for every `v`, in particular for `"1.0.0"`.
Trailing zero padding never changes a comparison. -/
theorem compareVersions_c5_amended :
    compareVersions "2.1.0" "2.1" = 0 ∧
    compareVersions "N/A" "1.0.0" = -1 ∧
    (∀ v : String, compareVersions "N/A" v = -1) ∧
    (∀ ps : List Int, ∀ k : Nat,
      cmpParts ps (ps ++ List.replicate k 0) = 0 ∧
      cmpParts (ps ++ List.replicate k 0) ps = 0) := by
  refine ⟨by decide, by decide, fun v => by simp [compareVersions], cmpParts_pad_zero⟩

/-! ## C6: `enrichDocumentMetadata` -/

/-- The claim's duplicate-key example: two `version` entries. -/
def c6ExampleDoc : DocumentWithStore :=
  { name := "docs/1"
    displayName := "Doc 1"
    customMetadata := some
      [{ key := some "version", stringValue := some "2.1.0",
         stringListValue := none, numericValue := none },
       { key := some "version", stringValue := some "9.9.9",
         stringListValue := none, numericValue := none }]
    storeName := "stores/s"
    storeDisplayName := "S"
    createTime := none
    updateTime := none
    sizeBytes := none
    mimeType := none }

/-- C6: enrichment scans the metadata for the reserved keys taking the first
match (`d2` with first `version` entry `mv`: the derived version comes from
`mv`, whatever follows it), the duplicate-key example enriches to version
`"2.1.0"`, and a document `d1` carrying none of the reserved keys gets the
defaults: version `"N/A"`, the em-dash placeholder for notes, no category,
empty tag list. -/
theorem enrichDocumentMetadata_c6 (d1 d2 : DocumentWithStore)
    (pre post : List CustomMetadata) (mv : CustomMetadata)
    (h1 : ∀ l, d1.customMetadata = some l → ∀ m ∈ l,
      ¬ m.key = some "version" ∧ ¬ m.key = some "notes" ∧
      ¬ m.key = some "category" ∧ ¬ m.key = some "tags")
    (h2 : d2.customMetadata = some (pre ++ mv :: post))
    (h3 : ∀ m ∈ pre, ¬ m.key = some "version")
    (h4 : mv.key = some "version") :
    (enrichDocumentMetadata d1).version = "N/A" ∧
    (enrichDocumentMetadata d1).notes = notesPlaceholder ∧
    (enrichDocumentMetadata d1).category = none ∧
    (enrichDocumentMetadata d1).tags = some [] ∧
    (enrichDocumentMetadata d2).version = jsOrString mv.stringValue "N/A" ∧
    (enrichDocumentMetadata c6ExampleDoc).version = "2.1.0" := by
  have hv : metaFind d1 "version" = none :=
    metaFind_eq_none d1 "version" (fun l hl m hm => (h1 l hl m hm).1)
  have hn : metaFind d1 "notes" = none :=
    metaFind_eq_none d1 "notes" (fun l hl m hm => (h1 l hl m hm).2.1)
  have hc : metaFind d1 "category" = none :=
    metaFind_eq_none d1 "category" (fun l hl m hm => (h1 l hl m hm).2.2.1)
  have ht : metaFind d1 "tags" = none :=
    metaFind_eq_none d1 "tags" (fun l hl m hm => (h1 l hl m hm).2.2.2)
  have hfirst : metaFind d2 "version" = some mv := by
    unfold metaFind
    rw [h2]
    show List.find? (fun m => m.key == some "version") (pre ++ mv :: post) = some mv
    exact find?_first _ pre post mv
      (fun y hy => by simpa using h3 y hy) (by simpa using h4)
  refine ⟨?_, ?_, ?_, ?_, ?_, by decide⟩
  · simp [enrichDocumentMetadata, hv, jsOrString]
  · simp [enrichDocumentMetadata, hn, jsOrString]
  · simp [enrichDocumentMetadata, hc]
  · simp [enrichDocumentMetadata, ht]
  · simp [enrichDocumentMetadata, hfirst]

/-- A concrete document with no metadata at all. -/
def noMetaDoc : DocumentWithStore :=
  { name := "docs/0"
    displayName := "D0"
    customMetadata := none
    storeName := "stores/s"
    storeDisplayName := "S"
    createTime := none
    updateTime := none
    sizeBytes := none
    mimeType := none }

/-- A concrete metadata entry `version = 7.0`. -/
def versionMeta7 : CustomMetadata :=
  { key := some "version"
    stringValue := some "7.0"
    stringListValue := none
    numericValue := none }

/-- A concrete document whose metadata is exactly `[versionMeta7]`. -/
def singleVersionDoc : DocumentWithStore :=
  { name := "docs/7"
    displayName := "D7"
    customMetadata := some [versionMeta7]
    storeName := "stores/s"
    storeDisplayName := "S"
    createTime := none
    updateTime := none
    sizeBytes := none
    mimeType := none }

/-- C6, witness: the theorem applied to the concrete documents — the
document with no metadata takes all four defaults, the single-entry
document enriches to version `"7.0"`, and the duplicate-key example to
`"2.1.0"`. -/
theorem enrichDocumentMetadata_c6_witness :
    (enrichDocumentMetadata noMetaDoc).version = "N/A" ∧
    (enrichDocumentMetadata noMetaDoc).notes = notesPlaceholder ∧
    (enrichDocumentMetadata noMetaDoc).category = none ∧
    (enrichDocumentMetadata noMetaDoc).tags = some [] ∧
    (enrichDocumentMetadata singleVersionDoc).version =
      jsOrString versionMeta7.stringValue "N/A" ∧
    (enrichDocumentMetadata c6ExampleDoc).version = "2.1.0" :=
  enrichDocumentMetadata_c6 noMetaDoc singleVersionDoc [] [] versionMeta7
    (by intro l hl; simp [noMetaDoc] at hl)
    (by rfl)
    (by intro m hm; simp at hm)
    (by rfl)

/-! ## C9: `exportDocumentsAsCSV` -/

/-- The claim's CSV example: tags `["a", "b"]` and notes containing a
comma. -/
def c9ExampleDoc : ManagedDocument :=
  { name := "docs/2"
    displayName := "Widget SOP"
    customMetadata := none
    storeName := "stores/s"
    storeDisplayName := "Main Store"
    version := "1.0"
    notes := "hello, world"
    category := none
    tags := some ["a", "b"]
    lastModified := some "2024-01-01"
    fileSize := none
    mimeType := some "application/pdf" }

set_option maxRecDepth 10000 in
/-- C9: the export of an empty document list is exactly the (unquoted)
header row; the export of the example document appends one line in which
every one of the nine fields is double-quoted, the comma-carrying notes
value stays one quoted field, and the tags render as `"a; b"`; and every
data row has exactly as many fields as the header. -/
theorem exportDocumentsAsCSV_c9 :
    exportDocumentsAsCSV [] =
      "Name,Store,Version,Notes,Category,Tags,Last Modified,File Size (KB),MIME Type" ∧
    exportDocumentsAsCSV [c9ExampleDoc] =
      "Name,Store,Version,Notes,Category,Tags,Last Modified,File Size (KB),MIME Type\n\"Widget SOP\",\"Main Store\",\"1.0\",\"hello, world\",\"\",\"a; b\",\"2024-01-01\",\"\",\"application/pdf\"" ∧
    (∀ d : ManagedDocument, (csvRow d).length = csvHeaders.length) :=
  ⟨by decide, by decide, fun d => rfl⟩

/-! ## C2: `pollOperationUntilComplete` (`api.services.tsx`)

The status check is modelled as a function from the 0-based call index to
the operation record returned by that call; the poller's sleeps are
recorded as a running total of slept milliseconds.  A thrown exception is
modelled by the result constructors `operationFailed` and `timedOut`. -/

/-- The record returned by `checkOperationStatus`: `done`, optional error
payload, optional response payload. -/
structure OperationStatus (ε ρ : Type) where
  done : Bool
  error : Option ε
  response : Option ρ

/-- Outcome of the poller: the returned `operation.response`, or the thrown
operation-failed error (carrying the backend payload), or the thrown
timeout error. -/
inductive PollResult (ε ρ : Type) where
  | success : Option ρ → PollResult ε ρ
  | operationFailed : ε → PollResult ε ρ
  | timedOut : PollResult ε ρ
deriving DecidableEq

/-- Default `maxAttempts` of `pollOperationUntilComplete`. -/
def defaultMaxAttempts : Nat := 20

/-- Default `intervalMs` of `pollOperationUntilComplete`. -/
def defaultIntervalMs : Nat := 3000

/-- The `while (attempts < maxAttempts)` loop: check the operation once per
iteration; when it is done return (or fail on an error payload), otherwise
sleep `intervalMs` and try again; when the fuel runs out the timeout error
is thrown.  Returns (result, number of checks made, milliseconds slept). -/
def pollLoop {ε ρ : Type} (check : Nat → OperationStatus ε ρ) (intervalMs : Nat) :
    Nat → Nat → PollResult ε ρ × Nat × Nat
  | _, 0 => (.timedOut, 0, 0)
  | k, fuel + 1 =>
    let op := check k
    if op.done then
      match op.error with
      | some e => (.operationFailed e, 1, 0)
      | none => (.success op.response, 1, 0)
    else
      let r := pollLoop check intervalMs (k + 1) fuel
      (r.1, r.2.1 + 1, r.2.2 + intervalMs)

/-- `pollOperationUntilComplete` from `api.services.tsx`. -/
def pollOperationUntilComplete {ε ρ : Type} (check : Nat → OperationStatus ε ρ)
    (maxAttempts intervalMs : Nat) : PollResult ε ρ × Nat × Nat :=
  pollLoop check intervalMs 0 maxAttempts

/-- What a completed check produces. -/
def doneOutcome {ε ρ : Type} (op : OperationStatus ε ρ) : PollResult ε ρ :=
  match op.error with
  | some e => .operationFailed e
  | none => .success op.response

/-- If the first done check is the `j`-th one made (0-based), the loop stops
there with that check's outcome after `j + 1` checks and `j` sleeps. -/
lemma pollLoop_first_done {ε ρ : Type} (check : Nat → OperationStatus ε ρ)
    (intervalMs : Nat) (j : Nat) :
    ∀ k fuel, j < fuel → (∀ i, i < j → (check (k + i)).done = false) →
      (check (k + j)).done = true →
      pollLoop check intervalMs k fuel =
        (doneOutcome (check (k + j)), j + 1, j * intervalMs) := by
  induction j with
  | zero =>
    intro k fuel hfuel _ hdone
    obtain ⟨f, rfl⟩ : ∃ f, fuel = f + 1 := ⟨fuel - 1, by omega⟩
    rw [show k + 0 = k from rfl] at hdone
    simp [pollLoop, hdone, doneOutcome]
    rcases (check k).error with _ | e <;> rfl
  | succ j ih =>
    intro k fuel hfuel hnot hdone
    obtain ⟨f, rfl⟩ : ∃ f, fuel = f + 1 := ⟨fuel - 1, by omega⟩
    have h0 : (check (k + 0)).done = false := hnot 0 (Nat.succ_pos j)
    have hrec := ih (k + 1) f (by omega)
      (fun i hi => by
        have := hnot (i + 1) (by omega)
        simpa [Nat.add_assoc, Nat.add_comm 1 i] using this)
      (by simpa [Nat.add_assoc, Nat.add_comm 1 j] using hdone)
    simp only [pollLoop]
    rw [show k + 0 = k from rfl] at h0
    simp [h0, hrec, Nat.add_assoc, Nat.add_comm 1 j, Nat.succ_mul]

/-- If no check up to the fuel bound ever reports done, the loop times out
after exactly `fuel` checks and `fuel` sleeps. -/
lemma pollLoop_timeout {ε ρ : Type} (check : Nat → OperationStatus ε ρ)
    (intervalMs : Nat) :
    ∀ fuel k, (∀ i, i < fuel → (check (k + i)).done = false) →
      pollLoop check intervalMs k fuel = (.timedOut, fuel, fuel * intervalMs) := by
  intro fuel
  induction fuel with
  | zero => intro k _; simp [pollLoop]
  | succ f ih =>
    intro k hnot
    have h0 : (check k).done = false := by simpa using hnot 0 (Nat.succ_pos f)
    have hrec := ih (k + 1) (fun i hi => by
      have := hnot (i + 1) (by omega)
      simpa [Nat.add_assoc, Nat.add_comm 1 i] using this)
    simp [pollLoop, h0, hrec, Nat.succ_mul]

/-- C2: the poller makes one status check at a time.  If the checks are not
done for the first `N - 1` calls and the `N`-th call (with `N ≤ maxAttempts`)
reports done with no error, the poller returns that call's response payload
after exactly `N` calls, having slept `N - 1` intervals; if the `N`-th call
reports done with an error payload `e`, it fails with the operation-failed
error carrying `e`; and if no call ever reports done, it fails with the
timeout error after exactly `maxAttempts` calls at the configured interval.
The defaults are 20 attempts and 3000 ms. -/
theorem pollOperationUntilComplete_c2 {ε ρ : Type} (check : Nat → OperationStatus ε ρ)
    (maxAttempts intervalMs N : Nat) (e : ε) :
    defaultMaxAttempts = 20 ∧ defaultIntervalMs = 3000 ∧
    (1 ≤ N → N ≤ maxAttempts → (∀ i, i + 1 < N → (check i).done = false) →
      (check (N - 1)).done = true → (check (N - 1)).error = none →
      pollOperationUntilComplete check maxAttempts intervalMs =
        (.success (check (N - 1)).response, N, (N - 1) * intervalMs)) ∧
    (1 ≤ N → N ≤ maxAttempts → (∀ i, i + 1 < N → (check i).done = false) →
      (check (N - 1)).done = true → (check (N - 1)).error = some e →
      pollOperationUntilComplete check maxAttempts intervalMs =
        (.operationFailed e, N, (N - 1) * intervalMs)) ∧
    ((∀ i, i < maxAttempts → (check i).done = false) →
      pollOperationUntilComplete check maxAttempts intervalMs =
        (.timedOut, maxAttempts, maxAttempts * intervalMs)) := by
  refine ⟨rfl, rfl, ?_, ?_, ?_⟩
  · intro h1 hmax hnot hdone herr
    have := pollLoop_first_done check intervalMs (N - 1) 0 maxAttempts
      (by omega) (fun i hi => by simpa using hnot i (by omega)) (by simpa using hdone)
    rw [pollOperationUntilComplete, this]
    simp [doneOutcome, herr]
    omega
  · intro h1 hmax hnot hdone herr
    have := pollLoop_first_done check intervalMs (N - 1) 0 maxAttempts
      (by omega) (fun i hi => by simpa using hnot i (by omega)) (by simpa using hdone)
    rw [pollOperationUntilComplete, this]
    simp [doneOutcome, herr]
    omega
  · intro hnot
    exact pollLoop_timeout check intervalMs maxAttempts 0 (fun i hi => by simpa using hnot i hi)

/-- Status stub that is done (successfully) from the third call on. -/
def checkDoneAt3 : Nat → OperationStatus String Nat :=
  fun i => { done := decide (2 ≤ i), error := none, response := some 42 }

/-- Status stub whose second call is done with an error payload. -/
def checkFailAt2 : Nat → OperationStatus String Nat :=
  fun i => { done := decide (1 ≤ i),
             error := if 1 ≤ i then some "boom" else none,
             response := none }

/-- Status stub that is never done. -/
def checkNeverDone : Nat → OperationStatus String Nat :=
  fun _ => { done := false, error := none, response := none }

/-- C2, witness: the three behaviours at concrete stubs — success on call 3
of 20 with 2 sleeps, operation failure on call 2, and timeout after exactly
20 calls of 3000 ms each. -/
theorem pollOperationUntilComplete_c2_witness :
    pollOperationUntilComplete checkDoneAt3 20 3000 = (.success (some 42), 3, 6000) ∧
    pollOperationUntilComplete checkFailAt2 20 3000 = (.operationFailed "boom", 2, 3000) ∧
    pollOperationUntilComplete checkNeverDone 20 3000 = (.timedOut, 20, 60000) := by
  refine ⟨?_, ?_, ?_⟩
  · have h := (pollOperationUntilComplete_c2 checkDoneAt3 20 3000 3 "x").2.2.1
      (by norm_num) (by norm_num)
      (fun i hi => by simp [checkDoneAt3]; omega)
      (by simp [checkDoneAt3]) (by simp [checkDoneAt3])
    simpa [checkDoneAt3] using h
  · have h := (pollOperationUntilComplete_c2 checkFailAt2 20 3000 2 "boom").2.2.2.1
      (by norm_num) (by norm_num)
      (fun i hi => by simp [checkFailAt2]; omega)
      (by simp [checkFailAt2]) (by simp [checkFailAt2])
    simpa [checkFailAt2] using h
  · have h := (pollOperationUntilComplete_c2 checkNeverDone 20 3000 1 "x").2.2.2.2
      (fun i _ => by simp [checkNeverDone])
    simpa using h

/-! ## C3 and C4: the upload loop of `handleUploadAndStartChat`
(`ChatbotView.tsx`)

The orchestration is modelled as a trace of observable events: progress
reports (the `current` field passed to `setUploadProgress`), store
creation, the start and the completion of each per-file upload, and — so
that its absence can be stated — document deletion, which the source never
performs.  The per-file outcome is a function from the file index to
success/failure; a thrown upload error is the `Except.error` result
(`handleUploadAndStartChat` rethrows it to its caller). -/

/-- Observable events of the upload orchestration. -/
inductive UploadEvent where
  | progressReport (current : Int)
  | storeCreated
  | uploadAttempt (i : Nat)
  | uploadDone (i : Nat)
  | documentDeleted (i : Nat)
deriving DecidableEq

/-- JavaScript `Math.round`: nearest integer, half away from zero (for the
non-negative values used here, `⌊x + 1/2⌋`). -/
def jsRound (q : ℚ) : Int := ⌊q + 1/2⌋

/-- The progress value computed at the head of loop iteration `i`:
`storeCreationWeight + i * (embeddingWeight / files.length)`. -/
def progressValue (n i : Nat) : ℚ := 5 + (i : ℚ) * (95 / (n : ℚ))

/-- The `for` loop of `handleUploadAndStartChat`: at each index report
`Math.round` of the progress value, attempt the upload, and either continue
with the next file or abort with the failing index (the remaining files are
never attempted). -/
def uploadLoop (uploadOk : Nat → Bool) (n : Nat) : Nat → Nat → List UploadEvent × Except Nat Unit
  | _, 0 => ([], .ok ())
  | i, fuel + 1 =>
    if uploadOk i then
      let r := uploadLoop uploadOk n (i + 1) fuel
      (UploadEvent.progressReport (jsRound (progressValue n i)) ::
        UploadEvent.uploadAttempt i :: UploadEvent.uploadDone i :: r.1, r.2)
    else
      ([UploadEvent.progressReport (jsRound (progressValue n i)), UploadEvent.uploadAttempt i],
        .error i)

/-- `handleUploadAndStartChat` from `ChatbotView.tsx`, as its event trace:
report 0, create the store, report 5, run the upload loop, and on success
report 100; on failure the error is rethrown (the catch block updates
status/message only — it deletes nothing). The `files.length === 0` guard
returns before any event. -/
def handleUploadAndStartChat (uploadOk : Nat → Bool) (n : Nat) :
    List UploadEvent × Except Nat Unit :=
  if n = 0 then ([], .ok ())
  else
    let r := uploadLoop uploadOk n 0 n
    match r.2 with
    | .ok _ =>
      (UploadEvent.progressReport 0 :: UploadEvent.storeCreated ::
        UploadEvent.progressReport 5 :: r.1 ++ [UploadEvent.progressReport 100], .ok ())
    | .error i =>
      (UploadEvent.progressReport 0 :: UploadEvent.storeCreated ::
        UploadEvent.progressReport 5 :: r.1, .error i)

/-- Project a progress report out of an event. -/
def progressOf : UploadEvent → Option Int
  | .progressReport c => some c
  | _ => none

/-- Project an upload attempt out of an event. -/
def attemptOf : UploadEvent → Option Nat
  | .uploadAttempt i => some i
  | _ => none

/-- Project an upload completion out of an event. -/
def doneOf : UploadEvent → Option Nat
  | .uploadDone i => some i
  | _ => none

/-- Project a document deletion out of an event. -/
def deleteOf : UploadEvent → Option Nat
  | .documentDeleted i => some i
  | _ => none

/-- The sequence of progress values reported during a run. -/
def reportedProgress (uploadOk : Nat → Bool) (n : Nat) : List Int :=
  (handleUploadAndStartChat uploadOk n).1.filterMap progressOf

@[simp] lemma progressOf_report (c : Int) : progressOf (.progressReport c) = some c := rfl

@[simp] lemma progressOf_created : progressOf .storeCreated = none := rfl

@[simp] lemma progressOf_att (i : Nat) : progressOf (.uploadAttempt i) = none := rfl

@[simp] lemma progressOf_done (i : Nat) : progressOf (.uploadDone i) = none := rfl

@[simp] lemma progressOf_del (i : Nat) : progressOf (.documentDeleted i) = none := rfl

@[simp] lemma attemptOf_report (c : Int) : attemptOf (.progressReport c) = none := rfl

@[simp] lemma attemptOf_created : attemptOf .storeCreated = none := rfl

@[simp] lemma attemptOf_att (i : Nat) : attemptOf (.uploadAttempt i) = some i := rfl

@[simp] lemma attemptOf_done (i : Nat) : attemptOf (.uploadDone i) = none := rfl

@[simp] lemma attemptOf_del (i : Nat) : attemptOf (.documentDeleted i) = none := rfl

@[simp] lemma doneOf_report (c : Int) : doneOf (.progressReport c) = none := rfl

@[simp] lemma doneOf_created : doneOf .storeCreated = none := rfl

@[simp] lemma doneOf_att (i : Nat) : doneOf (.uploadAttempt i) = none := rfl

@[simp] lemma doneOf_done (i : Nat) : doneOf (.uploadDone i) = some i := rfl

@[simp] lemma doneOf_del (i : Nat) : doneOf (.documentDeleted i) = none := rfl

@[simp] lemma deleteOf_report (c : Int) : deleteOf (.progressReport c) = none := rfl

@[simp] lemma deleteOf_created : deleteOf .storeCreated = none := rfl

@[simp] lemma deleteOf_att (i : Nat) : deleteOf (.uploadAttempt i) = none := rfl

@[simp] lemma deleteOf_done (i : Nat) : deleteOf (.uploadDone i) = none := rfl

@[simp] lemma deleteOf_del (i : Nat) : deleteOf (.documentDeleted i) = some i := rfl

/-- Compute `jsRound` from floor bounds. -/
lemma jsRound_eq (q : ℚ) (z : ℤ) (h1 : (z : ℚ) ≤ q + 1/2) (h2 : q + 1/2 < (z : ℚ) + 1) :
    jsRound q = z := by
  rw [jsRound, Int.floor_eq_iff]
  exact ⟨h1, by exact_mod_cast h2⟩

/-- `jsRound` is monotone. -/
lemma jsRound_mono {q r : ℚ} (h : q ≤ r) : jsRound q ≤ jsRound r :=
  Int.floor_le_floor (by linarith)

/-- The loop's progress values increase with the file index. -/
lemma progressValue_mono (n : Nat) {i j : Nat} (h : i ≤ j) :
    progressValue n i ≤ progressValue n j := by
  unfold progressValue
  have hc : (i : ℚ) ≤ (j : ℚ) := by exact_mod_cast h
  have hnn : (0 : ℚ) ≤ 95 / (n : ℚ) := by positivity
  nlinarith

/-- Any in-loop progress value is at most 100. -/
lemma progressValue_le_100 (n k : Nat) (hn : 1 ≤ n) (hk : k ≤ n) :
    progressValue n k ≤ 100 := by
  unfold progressValue
  have hn0 : (0 : ℚ) < (n : ℚ) := by exact_mod_cast hn
  have hc : (k : ℚ) ≤ (n : ℚ) := by exact_mod_cast hk
  have hnn : (0 : ℚ) ≤ 95 / (n : ℚ) := by positivity
  have h1 : (k : ℚ) * (95 / (n : ℚ)) ≤ (n : ℚ) * (95 / (n : ℚ)) :=
    mul_le_mul_of_nonneg_right hc hnn
  have h2 : (n : ℚ) * (95 / (n : ℚ)) = 95 := by field_simp
  linarith

/-- For runs of at most 189 files, every in-loop progress report rounds to
strictly less than 100 (at 190 files the report before the last file is
`jsRound 99.5 = 100`). -/
lemma jsRound_progressValue_lt_100 (n i : Nat) (hn1 : 1 ≤ n) (hn : n ≤ 189)
    (hi : i < n) : jsRound (progressValue n i) < 100 := by
  rw [jsRound, Int.floor_lt]
  unfold progressValue
  have hn0 : (0 : ℚ) < (n : ℚ) := by exact_mod_cast hn1
  have hir : (i : ℚ) ≤ (n : ℚ) - 1 := by
    have : (i : ℚ) + 1 ≤ (n : ℚ) := by exact_mod_cast hi
    linarith
  have hnn : (0 : ℚ) ≤ 95 / (n : ℚ) := by positivity
  have h1 : (i : ℚ) * (95 / (n : ℚ)) ≤ ((n : ℚ) - 1) * (95 / (n : ℚ)) :=
    mul_le_mul_of_nonneg_right hir hnn
  have h2 : ((n : ℚ) - 1) * (95 / (n : ℚ)) = 95 - 95 / (n : ℚ) := by field_simp; ring
  have h3 : 95 / (189 : ℚ) ≤ 95 / (n : ℚ) := by
    apply div_le_div_of_nonneg_left (by norm_num) hn0
    exact_mod_cast hn
  push_cast
  linarith

/-- The filtered progress reports of the true branch of one loop
iteration. -/
lemma uploadLoop_reports_true (ok : Nat → Bool) (n i f : Nat) (h : ok i = true) :
    (uploadLoop ok n i (f + 1)).1.filterMap progressOf =
      jsRound (progressValue n i) :: (uploadLoop ok n (i + 1) f).1.filterMap progressOf := by
  rw [uploadLoop]
  simp [h]

/-- The filtered progress reports of the false branch of one loop
iteration. -/
lemma uploadLoop_reports_false (ok : Nat → Bool) (n i f : Nat) (h : ok i = false) :
    (uploadLoop ok n i (f + 1)).1.filterMap progressOf = [jsRound (progressValue n i)] := by
  rw [uploadLoop]
  simp [h]

/-- The first progress value a nonempty loop reports is the one for its
starting index. -/
lemma uploadLoop_reports_head (ok : Nat → Bool) (n i fuel : Nat) :
    (((uploadLoop ok n i (fuel + 1)).1.filterMap progressOf)).head? =
      some (jsRound (progressValue n i)) := by
  cases h : ok i with
  | true => rw [uploadLoop_reports_true ok n i fuel h]; rfl
  | false => rw [uploadLoop_reports_false ok n i fuel h]; rfl

/-- Every progress value the loop reports is the rounded progress value of
some index in the processed range. -/
lemma uploadLoop_reports_mem (ok : Nat → Bool) (n : Nat) :
    ∀ fuel i x, x ∈ (uploadLoop ok n i fuel).1.filterMap progressOf →
      ∃ k, i ≤ k ∧ k < i + fuel ∧ x = jsRound (progressValue n k) := by
  intro fuel
  induction fuel with
  | zero => intro i x hx; simp [uploadLoop] at hx
  | succ f ih =>
    intro i x hx
    cases h : ok i with
    | true =>
      rw [uploadLoop_reports_true ok n i f h, List.mem_cons] at hx
      rcases hx with rfl | hx
      · exact ⟨i, le_refl i, by omega, rfl⟩
      · obtain ⟨k, hk1, hk2, hk3⟩ := ih (i + 1) x hx
        exact ⟨k, by omega, by omega, hk3⟩
    | false =>
      rw [uploadLoop_reports_false ok n i f h] at hx
      simp at hx
      exact ⟨i, le_refl i, by omega, hx⟩

/-- The loop's progress reports are non-decreasing. -/
lemma uploadLoop_reports_chain (ok : Nat → Bool) (n : Nat) :
    ∀ fuel i, ((uploadLoop ok n i fuel).1.filterMap progressOf).Chain' (· ≤ ·) := by
  intro fuel
  induction fuel with
  | zero => intro i; simp [uploadLoop]
  | succ f ih =>
    intro i
    cases h : ok i with
    | true =>
      rw [uploadLoop_reports_true ok n i f h, List.chain'_cons']
      refine ⟨?_, ih (i + 1)⟩
      intro y hy
      cases f with
      | zero => simp [uploadLoop] at hy
      | succ f2 =>
        rw [uploadLoop_reports_head ok n (i + 1) f2] at hy
        simp at hy
        subst hy
        exact jsRound_mono (progressValue_mono n (by omega))
    | false =>
      rw [uploadLoop_reports_false ok n i f h]
      simp

/-- C3: with the first failing file at index `j < n` (all earlier uploads
succeeding), the orchestration rethrows the error of file `j`, the attempted
files are exactly `0 … j` (no file after `j` is ever attempted), the
completed files are exactly `0 … j - 1`, and no document deletion ever
occurs (already-uploaded files are not rolled back). -/
theorem handleUploadAndStartChat_c3 (ok : Nat → Bool) (n j : Nat)
    (hj : j < n) (hfail : ok j = false) (hpre : ∀ k, k < j → ok k = true) :
    (handleUploadAndStartChat ok n).2 = .error j ∧
    (handleUploadAndStartChat ok n).1.filterMap attemptOf = List.range (j + 1) ∧
    (handleUploadAndStartChat ok n).1.filterMap doneOf = List.range j ∧
    (handleUploadAndStartChat ok n).1.filterMap deleteOf = [] := by
  have main : ∀ fuel i, i ≤ j → j < i + fuel → (∀ k, i ≤ k → k < j → ok k = true) →
      (uploadLoop ok n i fuel).2 = .error j ∧
      (uploadLoop ok n i fuel).1.filterMap attemptOf = List.range' i (j + 1 - i) ∧
      (uploadLoop ok n i fuel).1.filterMap doneOf = List.range' i (j - i) ∧
      (uploadLoop ok n i fuel).1.filterMap deleteOf = [] := by
    intro fuel
    induction fuel with
    | zero => intro i h1 h2 _; omega
    | succ f ih =>
      intro i h1 h2 hall
      by_cases hij : i = j
      · subst hij
        rw [uploadLoop]
        simp only [hfail, Bool.false_eq_true, if_false]
        rw [show i + 1 - i = 1 from by omega, show i - i = 0 from by omega]
        refine ⟨?_, ?_, ?_, ?_⟩ <;> simp [List.range']
      · have hi : ok i = true := hall i (le_refl i) (by omega)
        obtain ⟨e1, e2, e3, e4⟩ :=
          ih (i + 1) (by omega) (by omega) (fun k hk1 hk2 => hall k (by omega) hk2)
        rw [show j + 1 - (i + 1) = j - i from by omega] at e2
        rw [uploadLoop]
        simp only [hi, if_true]
        refine ⟨e1, ?_, ?_, ?_⟩
        · rw [show j + 1 - i = (j - i) + 1 from by omega]
          simp [List.range', e2]
        · rw [show j - i = (j - (i + 1)) + 1 from by omega]
          simp [List.range', e3]
        · simp [e4]
  have hn : n ≠ 0 := by omega
  obtain ⟨e1, e2, e3, e4⟩ := main n 0 (by omega) (by omega) (fun k _ hk => hpre k hk)
  rw [handleUploadAndStartChat, if_neg hn]
  simp only [e1]
  refine ⟨by simp, ?_, ?_, ?_⟩
  · simp [e2, List.range_eq_range']
  · simp [e3, List.range_eq_range']
  · simp [e4]

/-- C3, witness: 3 files with file 2 (index 1) failing — the run fails with
that file's error, files 0 and 1 are attempted, only file 0 completes, file
2 (index 2, the third file) is never attempted, and nothing is deleted. -/
theorem handleUploadAndStartChat_c3_witness :
    (handleUploadAndStartChat (fun i => decide (i ≠ 1)) 3).2 = .error 1 ∧
    (handleUploadAndStartChat (fun i => decide (i ≠ 1)) 3).1.filterMap attemptOf =
      List.range 2 ∧
    (handleUploadAndStartChat (fun i => decide (i ≠ 1)) 3).1.filterMap doneOf =
      List.range 1 ∧
    (handleUploadAndStartChat (fun i => decide (i ≠ 1)) 3).1.filterMap deleteOf = [] :=
  handleUploadAndStartChat_c3 (fun i => decide (i ≠ 1)) 3 1 (by norm_num)
    (by simp) (fun k hk => by simp; omega)

/-- `jsRound` of the exact value 5 is 5. -/
lemma jsRound_five : jsRound (5 : ℚ) = 5 :=
  jsRound_eq _ 5 (by norm_num) (by norm_num)

/-- `jsRound` of the exact value 100 is 100. -/
lemma jsRound_hundred : jsRound (100 : ℚ) = 100 :=
  jsRound_eq _ 100 (by norm_num) (by norm_num)

/-- The progress value of index 0 is the store-creation weight 5. -/
lemma progressValue_zero (n : Nat) : progressValue n 0 = 5 := by
  simp [progressValue]

/-- The progress reports of any run — successful, failed, or empty — are
non-decreasing. -/
lemma reportedProgress_chain (ok : Nat → Bool) (n : Nat) :
    (reportedProgress ok n).Chain' (· ≤ ·) := by
  unfold reportedProgress handleUploadAndStartChat
  by_cases hn : n = 0
  · simp [hn]
  · rw [if_neg hn]
    obtain ⟨m, rfl⟩ : ∃ m, n = m + 1 := ⟨n - 1, by omega⟩
    have hchain := uploadLoop_reports_chain ok (m + 1) (m + 1) 0
    have hhead := uploadLoop_reports_head ok (m + 1) 0 m
    have hfive : jsRound (progressValue (m + 1) 0) = 5 := by
      rw [progressValue_zero]; exact jsRound_five
    have hne : (uploadLoop ok (m + 1) 0 (m + 1)).1.filterMap progressOf ≠ [] := by
      intro hcon
      rw [hcon] at hhead
      simp at hhead
    cases hr : (uploadLoop ok (m + 1) 0 (m + 1)).2 with
    | ok u =>
      simp only [hr, List.filterMap_cons, progressOf_report, progressOf_created,
        List.filterMap_append, List.filterMap_nil, List.cons_append, List.nil_append]
      rw [List.chain'_cons', List.chain'_cons']
      refine ⟨?_, ?_, ?_⟩
      · intro y hy
        rw [List.head?_cons] at hy
        simp at hy
        omega
      · intro y hy
        rw [List.head?_append_of_ne_nil _ hne, hhead] at hy
        simp at hy
        subst hy
        rw [hfive]
      · refine hchain.append (by simp) ?_
        intro x hx y hy
        simp at hy
        subst hy
        obtain ⟨hxl, rfl⟩ := List.mem_getLast?_eq_getLast hx
        obtain ⟨k, hk1, hk2, hk3⟩ :=
          uploadLoop_reports_mem ok (m + 1) (m + 1) 0 _ (List.getLast_mem hxl)
        rw [hk3, ← jsRound_hundred]
        exact jsRound_mono (progressValue_le_100 (m + 1) k (by omega) (by omega))
    | error i =>
      simp only [hr, List.filterMap_cons, progressOf_report, progressOf_created]
      rw [List.chain'_cons', List.chain'_cons']
      refine ⟨?_, ?_, hchain⟩
      · intro y hy
        rw [List.head?_cons] at hy
        simp at hy
        omega
      · intro y hy
        rw [hhead] at hy
        simp at hy
        subst hy
        rw [hfive]

/-- C4, counterexample: in the 3-file run the progress reported right after
file 1 completes (the report heading iteration 2) is
`Math.round(5 + 1 * 95/3) = 37`, not `5 + ⌊95/3⌋ = 36` as claimed; and for
a 190-file run the report heading the last iteration is
`Math.round(5 + 189 * 95/190) = Math.round(99.5) = 100`, so progress
reaches 100 before the last file completes, refuting "reaches 100 only
after all files complete" in general. -/
theorem handleUploadAndStartChat_c4_counterexample :
    (handleUploadAndStartChat (fun _ => true) 3).1 =
      [UploadEvent.progressReport 0, UploadEvent.storeCreated, UploadEvent.progressReport 5,
       UploadEvent.progressReport 5, UploadEvent.uploadAttempt 0, UploadEvent.uploadDone 0,
       UploadEvent.progressReport 37, UploadEvent.uploadAttempt 1, UploadEvent.uploadDone 1,
       UploadEvent.progressReport 68, UploadEvent.uploadAttempt 2, UploadEvent.uploadDone 2,
       UploadEvent.progressReport 100] ∧
    (37 : Int) ≠ 5 + 95 / 3 ∧
    jsRound (progressValue 190 189) = 100 := by
  have e0 : jsRound (progressValue 3 0) = 5 :=
    jsRound_eq _ 5 (by norm_num [progressValue]) (by norm_num [progressValue])
  have e1 : jsRound (progressValue 3 1) = 37 :=
    jsRound_eq _ 37 (by norm_num [progressValue]) (by norm_num [progressValue])
  have e2 : jsRound (progressValue 3 2) = 68 :=
    jsRound_eq _ 68 (by norm_num [progressValue]) (by norm_num [progressValue])
  refine ⟨?_, by decide, ?_⟩
  · simp [handleUploadAndStartChat, uploadLoop, e0, e1, e2]
  · exact jsRound_eq _ 100 (by norm_num [progressValue]) (by norm_num [progressValue])

/-- C4, amended: the progress reported after file 1 of a 3-file run is
`Math.round(5 + 95/3) = 37` (the code rounds the exact value rather than
adding `⌊95/3⌋`); the reported progress of every run is non-decreasing; and
for runs of at most 189 files every in-loop report is strictly below 100 —
the 100 report is emitted only after the loop has completed every file, as
the 3-file trace shows.  (With 190 or more files the rounded report heading
the last iteration already reaches 100.) -/
theorem handleUploadAndStartChat_c4_amended :
    (handleUploadAndStartChat (fun _ => true) 3).1 =
      [UploadEvent.progressReport 0, UploadEvent.storeCreated, UploadEvent.progressReport 5,
       UploadEvent.progressReport 5, UploadEvent.uploadAttempt 0, UploadEvent.uploadDone 0,
       UploadEvent.progressReport 37, UploadEvent.uploadAttempt 1, UploadEvent.uploadDone 1,
       UploadEvent.progressReport 68, UploadEvent.uploadAttempt 2, UploadEvent.uploadDone 2,
       UploadEvent.progressReport 100] ∧
    (∀ ok n, (reportedProgress ok n).Chain' (· ≤ ·)) ∧
    (∀ ok n, 1 ≤ n → n ≤ 189 →
      ((uploadLoop ok n 0 n).1.filterMap progressOf).all
        (fun x => decide (x < 100)) = true) := by
  refine ⟨?_, reportedProgress_chain, ?_⟩
  · have e0 : jsRound (progressValue 3 0) = 5 :=
      jsRound_eq _ 5 (by norm_num [progressValue]) (by norm_num [progressValue])
    have e1 : jsRound (progressValue 3 1) = 37 :=
      jsRound_eq _ 37 (by norm_num [progressValue]) (by norm_num [progressValue])
    have e2 : jsRound (progressValue 3 2) = 68 :=
      jsRound_eq _ 68 (by norm_num [progressValue]) (by norm_num [progressValue])
    simp [handleUploadAndStartChat, uploadLoop, e0, e1, e2]
  · intro ok n hn1 hn
    rw [List.all_eq_true]
    intro x hx
    obtain ⟨k, hk1, hk2, hk3⟩ := uploadLoop_reports_mem ok n n 0 x hx
    subst hk3
    simpa using jsRound_progressValue_lt_100 n k hn1 hn (by omega)

/-- C4, witness: the amended theorem's quantified parts applied at the
3-file all-success run. -/
theorem handleUploadAndStartChat_c4_witness :
    (reportedProgress (fun _ => true) 3).Chain' (· ≤ ·) ∧
    ((uploadLoop (fun _ => true) 3 0 3).1.filterMap progressOf).all
      (fun x => decide (x < 100)) = true :=
  ⟨handleUploadAndStartChat_c4_amended.2.1 (fun _ => true) 3,
   handleUploadAndStartChat_c4_amended.2.2 (fun _ => true) 3 (by norm_num) (by norm_num)⟩

/-! ## C1, C7, C8: the live demo audio session (`src/unnamed/part_005`)

The mutable refs of `LiveDemoView` are modelled as one state record.
Time (`AudioContext.currentTime`, buffer durations) is modelled with exact
rationals.  Calling `stop()` on a buffer source is recorded in `stopLog`;
`sourcesRef` is the `sources` list.  Asynchronous details (the session
close running through a promise, the `ended` listener pruning finished
sources) do not affect the claims and are noted where they are elided. -/

/-- The component status of `LiveDemoView`. -/
inductive DemoStatus where
  | idle
  | connecting
  | active
  | error
deriving DecidableEq

/-- An `AudioContext`: the teardown only inspects whether its state is
`closed`. -/
structure AudioCtx where
  closed : Bool
deriving DecidableEq

/-- A playback buffer source scheduled on the output graph. -/
structure ScheduledSource where
  id : Nat
  startTime : ℚ
  duration : ℚ
deriving DecidableEq

/-- The refs and state of `LiveDemoView` that the demo lifecycle touches. -/
structure LiveDemoState where
  status : DemoStatus
  statusMessage : String
  session : Option Nat
  mediaStream : Option (List Nat)
  scriptProcessor : Option Nat
  inputCtx : Option AudioCtx
  outputCtx : Option AudioCtx
  nextStartTime : ℚ
  sources : List ScheduledSource
  stopLog : List Nat
  nextSourceId : Nat
deriving DecidableEq

/-- The server-audio branch of `onmessage`: advance the cursor to
`max(nextStartTime, currentTime)`, start a new buffer source at the cursor,
advance the cursor by the buffer's duration and add the source to the set.
Returns the new state and the start time the source was scheduled at.
(The `ended` listener that later removes the source is immaterial here.) -/
def scheduleServerAudio (now duration : ℚ) (s : LiveDemoState) : LiveDemoState × ℚ :=
  let nst := max s.nextStartTime now
  ({ s with
      statusMessage := "AI is speaking..."
      nextStartTime := nst + duration
      sources := s.sources ++ [{ id := s.nextSourceId, startTime := nst, duration := duration }]
      nextSourceId := s.nextSourceId + 1 },
    nst)

/-- The `interrupted` branch of `onmessage`: stop every scheduled source,
clear the set, and reset the cursor to zero. -/
def onInterrupt (s : LiveDemoState) : LiveDemoState :=
  { s with
      stopLog := s.stopLog ++ s.sources.map (fun src => src.id)
      sources := []
      nextStartTime := 0
      statusMessage := "Listening..." }

/-- `handleEndDemo`: reset status and message, then check-and-clear each
resource in turn — close the session if present, stop the media tracks if
present, disconnect the script processor if present, close each audio
context unless it is already closed (stopping and clearing the scheduled
sources together with the output context).  Total (never throws). -/
def handleEndDemo (s : LiveDemoState) : LiveDemoState :=
  let s1 := { s with status := DemoStatus.idle,
                     statusMessage := "Click to start the live demo" }
  let s2 := match s1.session with
    | some _ => { s1 with session := none }
    | none => s1
  let s3 := match s2.mediaStream with
    | some _ => { s2 with mediaStream := none }
    | none => s2
  let s4 := match s3.scriptProcessor with
    | some _ => { s3 with scriptProcessor := none }
    | none => s3
  let s5 := match s4.inputCtx with
    | some c => if c.closed then s4 else { s4 with inputCtx := none }
    | none => s4
  match s5.outputCtx with
    | some c =>
      if c.closed then s5
      else { s5 with
              stopLog := s5.stopLog ++ s5.sources.map (fun src => src.id)
              sources := []
              outputCtx := none }
    | none => s5

/-- C1: a server audio chunk is scheduled at `max(nextStartTime, now)` and
the cursor then advances by the chunk's duration; hence when a second chunk
arrives at any time `now2` no later than the first chunk's end, it is
scheduled at exactly `start1 + dur1` — gapless — and whatever the arrival
time `now3` of the next chunk, it is never scheduled before `start1 + dur1`
— non-overlapping. -/
theorem scheduleServerAudio_c1 (s : LiveDemoState) (now1 now2 now3 dur1 dur2 : ℚ)
    (h2 : now2 ≤ max s.nextStartTime now1 + dur1) :
    (scheduleServerAudio now1 dur1 s).2 = max s.nextStartTime now1 ∧
    (scheduleServerAudio now1 dur1 s).1.nextStartTime =
      (scheduleServerAudio now1 dur1 s).2 + dur1 ∧
    (scheduleServerAudio now2 dur2 (scheduleServerAudio now1 dur1 s).1).2 =
      (scheduleServerAudio now1 dur1 s).2 + dur1 ∧
    (scheduleServerAudio now1 dur1 s).2 + dur1 ≤
      (scheduleServerAudio now3 dur2 (scheduleServerAudio now1 dur1 s).1).2 := by
  refine ⟨rfl, rfl, ?_, ?_⟩
  · show max (max s.nextStartTime now1 + dur1) now2 = max s.nextStartTime now1 + dur1
    exact max_eq_left h2
  · show max s.nextStartTime now1 + dur1 ≤ max (max s.nextStartTime now1 + dur1) now3
    exact le_max_left _ _

/-- The initial audio session state, as set up by `handleStartDemo`. -/
def initialLiveDemoState : LiveDemoState :=
  { status := DemoStatus.active
    statusMessage := "Listening..."
    session := some 0
    mediaStream := some [0]
    scriptProcessor := some 0
    inputCtx := some { closed := false }
    outputCtx := some { closed := false }
    nextStartTime := 0
    sources := []
    stopLog := []
    nextSourceId := 0 }

/-- C1, witness: two back-to-back 0.5 s chunks on a fresh session, the
first arriving at t = 1, the second at t = 1.25 (before the first ends at
1.5): the second starts at exactly 1.5. -/
theorem scheduleServerAudio_c1_witness :
    (scheduleServerAudio 1 (1/2) initialLiveDemoState).2 =
      max initialLiveDemoState.nextStartTime 1 ∧
    (scheduleServerAudio 1 (1/2) initialLiveDemoState).1.nextStartTime =
      (scheduleServerAudio 1 (1/2) initialLiveDemoState).2 + 1/2 ∧
    (scheduleServerAudio (5/4) (1/2)
        (scheduleServerAudio 1 (1/2) initialLiveDemoState).1).2 =
      (scheduleServerAudio 1 (1/2) initialLiveDemoState).2 + 1/2 ∧
    (scheduleServerAudio 1 (1/2) initialLiveDemoState).2 + 1/2 ≤
      (scheduleServerAudio 2 (1/2)
        (scheduleServerAudio 1 (1/2) initialLiveDemoState).1).2 :=
  scheduleServerAudio_c1 initialLiveDemoState 1 (5/4) 2 (1/2) (1/2)
    (by simp [initialLiveDemoState]; norm_num)

/-- C7: the interrupted branch stops every currently scheduled source
(their ids all enter the stop log), clears the set, and resets the cursor
to 0; the next chunk, arriving at any non-negative time `now`, is therefore
scheduled at exactly `now`. -/
theorem onInterrupt_c7 (s : LiveDemoState) (now dur : ℚ) (hnow : 0 ≤ now) :
    (onInterrupt s).sources = [] ∧
    (onInterrupt s).nextStartTime = 0 ∧
    (onInterrupt s).stopLog = s.stopLog ++ s.sources.map (fun src => src.id) ∧
    (scheduleServerAudio now dur (onInterrupt s)).2 = now := by
  refine ⟨rfl, rfl, rfl, ?_⟩
  show max (0 : ℚ) now = now
  exact max_eq_right hnow

/-- A session state with two sources scheduled, about to be interrupted. -/
def busyLiveDemoState : LiveDemoState :=
  { initialLiveDemoState with
      nextStartTime := 3
      sources := [{ id := 0, startTime := 2, duration := 1/2 },
                  { id := 1, startTime := 5/2, duration := 1/2 }]
      nextSourceId := 2 }

/-- C7, witness: interrupting a session with two scheduled sources stops
both (ids 0 and 1 enter the stop log), clears the set, resets the cursor,
and the next chunk at t = 2 starts at exactly 2. -/
theorem onInterrupt_c7_witness :
    (onInterrupt busyLiveDemoState).sources = [] ∧
    (onInterrupt busyLiveDemoState).nextStartTime = 0 ∧
    (onInterrupt busyLiveDemoState).stopLog =
      busyLiveDemoState.stopLog ++ busyLiveDemoState.sources.map (fun src => src.id) ∧
    (scheduleServerAudio 2 (1/2) (onInterrupt busyLiveDemoState)).2 = 2 :=
  onInterrupt_c7 busyLiveDemoState 2 (1/2) (by norm_num)

/-- C8: `handleEndDemo` is a total function of the state (teardown never
throws) and is idempotent — every call after the first is a no-op on the
state, whether the session was never started, already torn down, or in any
other configuration; and after one call the session, media stream and
script processor references are cleared and the status is idle. -/
theorem handleEndDemo_c8 (s : LiveDemoState) :
    handleEndDemo (handleEndDemo s) = handleEndDemo s ∧
    (handleEndDemo s).session = none ∧
    (handleEndDemo s).mediaStream = none ∧
    (handleEndDemo s).scriptProcessor = none ∧
    (handleEndDemo s).status = DemoStatus.idle := by
  obtain ⟨st, msg, sess, ms, sp, ic, oc, nst, srcs, log, nid⟩ := s
  cases sess <;> cases ms <;> cases sp <;>
    rcases ic with _ | ⟨⟨_ | _⟩⟩ <;> rcases oc with _ | ⟨⟨_ | _⟩⟩ <;>
    simp [handleEndDemo]

/-! ## C10: `filterDocuments` (`documentManagementService.tsx`)

JavaScript arrays are mutable objects, so the frame property — the caller's
array is left untouched — is stated over an explicit array store: a heap of
arrays addressed by index.  `[...documents]` allocates a fresh array;
`Array.prototype.filter` allocates a fresh array; `Array.prototype.sort`
writes the sorted contents back into the array it is called on (modelled as
a stable sort, which is what ECMAScript guarantees for a consistent
comparator).  Each filter stage below mirrors one `if` block of the
source. -/

/-- The criteria record of `filterDocuments`.  Dates are abstracted by a
`parseDate` valuation into `Int` (the host's `Date` ordering). -/
inductive SortKey where
  | name
  | version
  | date
  | store
deriving DecidableEq

/-- Sort direction; the comparator treats anything other than `'asc'` as
descending. -/
inductive SortOrder where
  | asc
  | desc
deriving DecidableEq

/-- `DocumentFilter` from `documentManagementService.tsx`. -/
structure DocumentFilter where
  searchTerm : Option String
  storeNames : Option (List String)
  versions : Option (List String)
  dateRange : Option (Int × Int)
  tags : Option (List String)
  sortBy : Option SortKey
  sortOrder : Option SortOrder
deriving DecidableEq

/-- The search-term predicate: case-insensitive substring match over name,
store, version, notes, category and tags. -/
def searchPred (searchLower : String) (doc : ManagedDocument) : Bool :=
  strIncludes (toLowerStr doc.displayName) searchLower ||
  strIncludes (toLowerStr doc.storeDisplayName) searchLower ||
  strIncludes (toLowerStr doc.version) searchLower ||
  strIncludes (toLowerStr doc.notes) searchLower ||
  (match doc.category with
   | some c => strIncludes (toLowerStr c) searchLower
   | none => false) ||
  (match doc.tags with
   | some ts => ts.any (fun tag => strIncludes (toLowerStr tag) searchLower)
   | none => false)

/-- The date-range predicate: documents without a (truthy) `lastModified`
are dropped; otherwise the parsed date must lie in the closed range. -/
def datePred (parseDate : String → Int) (range : Int × Int) (doc : ManagedDocument) : Bool :=
  match doc.lastModified with
  | some lm =>
    if lm = "" then false
    else decide (range.1 ≤ parseDate lm) && decide (parseDate lm ≤ range.2)
  | none => false

/-- The tags predicate: some document tag is among the filter's tags. -/
def tagsPred (filterTags : List String) (doc : ManagedDocument) : Bool :=
  match doc.tags with
  | some ts => ts.any (fun tag => filterTags.contains tag)
  | none => false

/-- The comparison value the sort switch extracts for a key. -/
def sortKeyVal (k : SortKey) (d : ManagedDocument) : String :=
  match k with
  | .name => toLowerStr d.displayName
  | .version => d.version
  | .date => d.lastModified.getD ""
  | .store => toLowerStr d.storeDisplayName

/-- The sort comparator: string comparison on the key values, direction
flipped unless `sortOrder` is `'asc'`. -/
def jsCompare (ord : Option SortOrder) (k : SortKey) (a b : ManagedDocument) : Int :=
  let ca := sortKeyVal k a
  let cb := sortKeyVal k b
  if lexLt ca.toList cb.toList then (if ord = some .asc then -1 else 1)
  else if lexLt cb.toList ca.toList then (if ord = some .asc then 1 else -1)
  else 0

/-- `Array.prototype.sort` with the comparator: a stable sort placing `a`
no later than `b` whenever `compare a b ≤ 0`. -/
def jsSortDocs (ord : Option SortOrder) (k : SortKey) (l : List ManagedDocument) :
    List ManagedDocument :=
  l.insertionSort (fun a b => jsCompare ord k a b ≤ 0)

/-- The array store: arrays addressed by allocation index. -/
abbrev ArrHeap : Type := List (List ManagedDocument)

/-- Allocate a fresh array holding `xs`; returns the store and the new
array's address. -/
def allocArr (h : ArrHeap) (xs : List ManagedDocument) : ArrHeap × Nat :=
  (h ++ [xs], List.length h)

/-- Read the array at an address. -/
def readArr (h : ArrHeap) (i : Nat) : List ManagedDocument :=
  (h[i]?).getD []

/-- Overwrite the array at an address (in-place mutation). -/
def writeArr (h : ArrHeap) (i : Nat) (xs : List ManagedDocument) : ArrHeap :=
  List.set h i xs

/-- `let filtered = [...documents]` — copy the input into a fresh array. -/
def copyStage (docsId : Nat) (p : ArrHeap) : ArrHeap × Nat :=
  allocArr p (readArr p docsId)

/-- The search-term block: with a truthy search term, `filtered` is rebound
to a freshly allocated filtered array. -/
def searchStage (f : DocumentFilter) (p : ArrHeap × Nat) : ArrHeap × Nat :=
  match f.searchTerm with
  | some st =>
    if st = "" then p
    else allocArr p.1 ((readArr p.1 p.2).filter (searchPred (toLowerStr st)))
  | none => p

/-- The store filter block (applies when `storeNames` is present and
nonempty). -/
def storeStage (f : DocumentFilter) (p : ArrHeap × Nat) : ArrHeap × Nat :=
  match f.storeNames with
  | some ns =>
    if ns.isEmpty then p
    else allocArr p.1 ((readArr p.1 p.2).filter (fun d => ns.contains d.storeName))
  | none => p

/-- The version filter block (applies when `versions` is present and
nonempty). -/
def versionStage (f : DocumentFilter) (p : ArrHeap × Nat) : ArrHeap × Nat :=
  match f.versions with
  | some vs =>
    if vs.isEmpty then p
    else allocArr p.1 ((readArr p.1 p.2).filter (fun d => vs.contains d.version))
  | none => p

/-- The date-range filter block. -/
def dateStage (parseDate : String → Int) (f : DocumentFilter) (p : ArrHeap × Nat) :
    ArrHeap × Nat :=
  match f.dateRange with
  | some r => allocArr p.1 ((readArr p.1 p.2).filter (datePred parseDate r))
  | none => p

/-- The tags filter block (applies when `tags` is present and nonempty). -/
def tagsStage (f : DocumentFilter) (p : ArrHeap × Nat) : ArrHeap × Nat :=
  match f.tags with
  | some ts =>
    if ts.isEmpty then p
    else allocArr p.1 ((readArr p.1 p.2).filter (tagsPred ts))
  | none => p

/-- The sorting block: `filtered.sort(...)` mutates `filtered` in place. -/
def sortStage (f : DocumentFilter) (p : ArrHeap × Nat) : ArrHeap × Nat :=
  match f.sortBy with
  | some k => (writeArr p.1 p.2 (jsSortDocs f.sortOrder k (readArr p.1 p.2)), p.2)
  | none => p

/-- `filterDocuments` from `documentManagementService.tsx`, over the array
store: copy, the five filter blocks in source order, then the in-place
sort; returns the store and the returned array's address. -/
def filterDocuments (parseDate : String → Int) (h : ArrHeap) (docsId : Nat)
    (f : DocumentFilter) : ArrHeap × Nat :=
  sortStage f (tagsStage f (dateStage parseDate f
    (versionStage f (storeStage f (searchStage f (copyStage docsId h))))))

/-- The frame invariant: the array at `i` still holds `v`, the store has
not shrunk below `n`, and the working array's address is at least `n`. -/
def heapInv (n i : Nat) (v : List ManagedDocument) (p : ArrHeap × Nat) : Prop :=
  readArr p.1 i = v ∧ n ≤ List.length p.1 ∧ n ≤ p.2

/-- Allocation preserves the frame invariant. -/
lemma heapInv_alloc {n i : Nat} {v : List ManagedDocument} {p : ArrHeap × Nat}
    (hp : heapInv n i v p) (hin : i < n) (xs : List ManagedDocument) :
    heapInv n i v (allocArr p.1 xs) := by
  obtain ⟨h1, h2, h3⟩ := hp
  refine ⟨?_, ?_, ?_⟩
  · rw [← h1]
    show ((p.1 ++ [xs])[i]?).getD [] = (p.1[i]?).getD []
    rw [List.getElem?_append_left (by omega)]
  · show n ≤ List.length (p.1 ++ [xs])
    rw [List.length_append]
    omega
  · show n ≤ List.length p.1
    omega

/-- Each conditional filter block preserves the frame invariant, since it
either leaves the pair alone or allocates. -/
lemma heapInv_of_alloc_or_id {n i : Nat} {v : List ManagedDocument} {p q : ArrHeap × Nat}
    (hp : heapInv n i v p) (hin : i < n)
    (hq : q = p ∨ ∃ xs, q = allocArr p.1 xs) : heapInv n i v q := by
  rcases hq with rfl | ⟨xs, rfl⟩
  · exact hp
  · exact heapInv_alloc hp hin xs

lemma searchStage_inv {n i : Nat} {v : List ManagedDocument} {p : ArrHeap × Nat}
    (f : DocumentFilter) (hp : heapInv n i v p) (hin : i < n) :
    heapInv n i v (searchStage f p) := by
  refine heapInv_of_alloc_or_id hp hin ?_
  unfold searchStage
  rcases f.searchTerm with _ | st
  · exact Or.inl rfl
  · by_cases hst : st = "" <;> simp [hst]

lemma storeStage_inv {n i : Nat} {v : List ManagedDocument} {p : ArrHeap × Nat}
    (f : DocumentFilter) (hp : heapInv n i v p) (hin : i < n) :
    heapInv n i v (storeStage f p) := by
  refine heapInv_of_alloc_or_id hp hin ?_
  unfold storeStage
  rcases f.storeNames with _ | ns
  · exact Or.inl rfl
  · by_cases hns : ns.isEmpty <;> simp [hns]

lemma versionStage_inv {n i : Nat} {v : List ManagedDocument} {p : ArrHeap × Nat}
    (f : DocumentFilter) (hp : heapInv n i v p) (hin : i < n) :
    heapInv n i v (versionStage f p) := by
  refine heapInv_of_alloc_or_id hp hin ?_
  unfold versionStage
  rcases f.versions with _ | vs
  · exact Or.inl rfl
  · by_cases hvs : vs.isEmpty <;> simp [hvs]

lemma dateStage_inv {n i : Nat} {v : List ManagedDocument} {p : ArrHeap × Nat}
    (parseDate : String → Int) (f : DocumentFilter) (hp : heapInv n i v p) (hin : i < n) :
    heapInv n i v (dateStage parseDate f p) := by
  refine heapInv_of_alloc_or_id hp hin ?_
  unfold dateStage
  rcases f.dateRange with _ | r <;> simp

lemma tagsStage_inv {n i : Nat} {v : List ManagedDocument} {p : ArrHeap × Nat}
    (f : DocumentFilter) (hp : heapInv n i v p) (hin : i < n) :
    heapInv n i v (tagsStage f p) := by
  refine heapInv_of_alloc_or_id hp hin ?_
  unfold tagsStage
  rcases f.tags with _ | ts
  · exact Or.inl rfl
  · by_cases hts : ts.isEmpty <;> simp [hts]

/-- The in-place sort writes only to the working array, whose address is
distinct from every address below `n`. -/
lemma sortStage_inv {n i : Nat} {v : List ManagedDocument} {p : ArrHeap × Nat}
    (f : DocumentFilter) (hp : heapInv n i v p) (hin : i < n) :
    heapInv n i v (sortStage f p) := by
  obtain ⟨h1, h2, h3⟩ := hp
  unfold sortStage
  rcases f.sortBy with _ | k
  · exact ⟨h1, h2, h3⟩
  · refine ⟨?_, ?_, h3⟩
    · rw [← h1]
      show ((List.set p.1 p.2 _)[i]?).getD [] = (p.1[i]?).getD []
      rw [List.getElem?_set_ne (by omega)]
    · show n ≤ List.length (List.set p.1 p.2 _)
      rw [List.length_set]
      omega

/-- C10: for every heap, input address, criteria and date valuation,
`filterDocuments` leaves the caller's array unchanged — same elements in
the same order — and returns the address of a freshly allocated array,
never the input's. -/
theorem filterDocuments_c10 (parseDate : String → Int) (h : ArrHeap) (docsId : Nat)
    (f : DocumentFilter) (hid : docsId < List.length h) :
    readArr (filterDocuments parseDate h docsId f).1 docsId = readArr h docsId ∧
    (filterDocuments parseDate h docsId f).2 ≠ docsId := by
  have base : heapInv (List.length h) docsId (readArr h docsId) (copyStage docsId h) := by
    refine ⟨?_, ?_, ?_⟩
    · show ((h ++ [readArr h docsId])[docsId]?).getD [] = readArr h docsId
      rw [List.getElem?_append_left (by omega)]
      rfl
    · show List.length h ≤ List.length (h ++ [readArr h docsId])
      rw [List.length_append]
      omega
    · exact le_refl _
  have final :
      heapInv (List.length h) docsId (readArr h docsId)
        (filterDocuments parseDate h docsId f) :=
    sortStage_inv f
      (tagsStage_inv f
        (dateStage_inv parseDate f
          (versionStage_inv f
            (storeStage_inv f (searchStage_inv f base hid) hid) hid) hid) hid) hid
  exact ⟨final.1, by have := final.2.2; omega⟩

/-- A concrete one-document heap for the C10 witness. -/
def c10Heap : ArrHeap := [[c9ExampleDoc]]

/-- A concrete criteria record: search for "widget" and sort by name. -/
def c10Filter : DocumentFilter :=
  { searchTerm := some "Widget"
    storeNames := none
    versions := none
    dateRange := none
    tags := none
    sortBy := some SortKey.name
    sortOrder := some SortOrder.asc }

/-- C10, witness: filtering and sorting the one-document heap leaves the
input array unchanged and returns a fresh address. -/
theorem filterDocuments_c10_witness :
    readArr (filterDocuments (fun _ => 0) c10Heap 0 c10Filter).1 0 = readArr c10Heap 0 ∧
    (filterDocuments (fun _ => 0) c10Heap 0 c10Filter).2 ≠ 0 :=
  filterDocuments_c10 (fun _ => 0) c10Heap 0 c10Filter (by simp [c10Heap])

end MfgCompliance
